import Mathlib

/-!
# Verification of the cal-server calendar renderer

Shallow embedding of `main.go` of binzume/cal-server.  The program renders a
two-month calendar page; the embedding models the rendering decisions (which
day cells are produced, their weekday column, their colors), the day-off and
anniversary predicates, config merging, path parsing, the encoding choice and
the HTTP handler's offset parameter.

Conventions of the embedding:
* Go `time.Time` values at midnight are modelled by a civil date `GoDate`
  (proleptic Gregorian, year ≥ 1 in all theorems).  The absolute day number
  `toDays` (with 0001-01-01 ↦ 0) models the absolute time underlying
  `time.Time`; all dates flowing through the renderer are midnight values
  (`ToDate` is applied by the code before any day arithmetic), so
  `t1.Sub(t2).Hours()` is exactly `24 * (toDays t1 - toDays t2)` with no
  floating-point error (midnight differences in nanoseconds are multiples of
  their float64 ulp, and the final quotient is an exact integer).
* Go weekdays are numbers 0..6 with Sunday = 0; `weekday` below reproduces
  `time.Time.Weekday` (0001-01-01 is a Monday in Go's proleptic calendar).
* Machine integers are modelled by `Int`/`Nat`; the one place where 64-bit
  overflow matters (the handler's offset parameter) wraps explicitly through
  `wrap64`.
-/

/-- Civil date (proleptic Gregorian).  Models a Go `time.Time` at midnight in
the fixed local location. -/
structure GoDate where
  year : Nat
  month : Nat
  day : Nat
deriving DecidableEq

/-- Go `isLeap`: leap year predicate of the proleptic Gregorian calendar. -/
def isLeap (y : Nat) : Bool :=
  y % 4 == 0 && (y % 100 != 0 || y % 400 == 0)

/-- Go's `daysBefore` table: cumulative days before the start of month `m+1`
in a non-leap year (`daysBefore 0 = 0`, `daysBefore 12 = 365`). -/
def daysBefore : Nat → Nat
  | 0 => 0
  | 1 => 31
  | 2 => 59
  | 3 => 90
  | 4 => 120
  | 5 => 151
  | 6 => 181
  | 7 => 212
  | 8 => 243
  | 9 => 273
  | 10 => 304
  | 11 => 334
  | _ => 365

/-- Days before the first of month `m` in year `y` (Go's day-of-year
computation: table lookup plus a leap-day adjustment from March on). -/
def daysBeforeMonth (y m : Nat) : Nat :=
  daysBefore (m - 1) + (if isLeap y ∧ 3 ≤ m then 1 else 0)

/-- Go's `daysIn(m, year)`: the number of days of month `m` of year `y`. -/
def daysInMonth (y m : Nat) : Nat :=
  if m = 2 ∧ isLeap y then 29 else daysBefore m - daysBefore (m - 1)

/-- Month length as the specification states it: February has 28 days, or 29
in leap years; April, June, September, November have 30; the rest 31. -/
def specDaysInMonth (y m : Nat) : Nat :=
  if m = 2 then (if isLeap y then 29 else 28)
  else if m = 4 ∨ m = 6 ∨ m = 9 ∨ m = 11 then 30 else 31

/-- Number of leap years in `1..y` (proleptic Gregorian rule). -/
def leapsBefore (y : Nat) : Nat :=
  y / 4 - y / 100 + y / 400

/-- Days from 0001-01-01 to the first day of year `y` (for `y ≥ 1`). -/
def daysBeforeYear (y : Nat) : Nat :=
  365 * (y - 1) + leapsBefore (y - 1)

/-- Absolute day number of a civil date, 0001-01-01 ↦ 0.  This models the
absolute time underlying a midnight Go `time.Time`. -/
def toDays (dt : GoDate) : Nat :=
  daysBeforeYear dt.year + daysBeforeMonth dt.year dt.month + (dt.day - 1)

/-- Go `t.Weekday()` as a number, Sunday = 0.  0001-01-01 (day number 0) is a
Monday, hence the `+ 1`. -/
def weekday (dt : GoDate) : Nat :=
  (toDays dt + 1) % 7

/-- Day-overflow normalization used to model Go's civil-component extraction:
while the day exceeds the month length, borrow a month.  Fuel-based so that it
reduces by evaluation; `d` itself is enough fuel since every step removes at
least one day.  The `1 ≤ daysInMonth` guard is only ever false on month values
outside 1..12, which the callers below never produce. -/
def normDaysAux : Nat → Nat → Nat → Nat → GoDate
  | 0, y, m, d => ⟨y, m, d⟩
  | fuel + 1, y, m, d =>
    if daysInMonth y m < d ∧ 1 ≤ daysInMonth y m then
      normDaysAux fuel (if m = 12 then y + 1 else y) (if m = 12 then 1 else m + 1)
        (d - daysInMonth y m)
    else ⟨y, m, d⟩

/-- Normalize a day-of-month that may exceed the month length. -/
def normDays (y m d : Nat) : GoDate :=
  normDaysAux d y m d

/-- Go `time.Date(y, m, d, 0, 0, 0, 0, loc)` for `m ≥ 1`, `d ≥ 1`: months are
normalized into 1..12 (carrying into the year), then the day is normalized.
This is the semantics of the `Date` calls done by `AddDate` in the source. -/
def goDate (y m d : Nat) : GoDate :=
  normDays (y + (m - 1) / 12) ((m - 1) % 12 + 1) d

/-- Go `int(t1.Sub(t2).Hours()) / 24` for midnight times: the duration in
hours is the exact integer `24 * (toDays t1 - toDays t2)`, and Go's `/` on
`int` truncates toward zero, as Lean's `Int.tdiv` does. -/
def goDiffDays (t1 t2 : GoDate) : Int :=
  Int.tdiv (24 * ((toDays t1 : Int) - (toDays t2 : Int))) 24

theorem goDiffDays_eq (t1 t2 : GoDate) :
    goDiffDays t1 t2 = (toDays t1 : Int) - (toDays t2 : Int) := by
  unfold goDiffDays
  exact Int.mul_tdiv_cancel_left _ (by norm_num)

/-- Sanity anchors for the calendar model: 1970-01-01 was a Thursday (4),
2000-01-01 a Saturday (6), 2024-02-03 a Saturday, 2024-02-04 a Sunday (0);
February has 29 days in 2024 and 28 in 2023. -/
theorem weekdayAnchors :
    weekday ⟨1970, 1, 1⟩ = 4 ∧ weekday ⟨2000, 1, 1⟩ = 6 ∧
    weekday ⟨2024, 2, 3⟩ = 6 ∧ weekday ⟨2024, 2, 4⟩ = 0 ∧
    daysInMonth 2024 2 = 29 ∧ daysInMonth 2023 2 = 28 := by
  decide

/-! ## Calendar arithmetic lemmas -/

theorem isLeap_iff (y : Nat) :
    isLeap y = true ↔ (4 ∣ y ∧ (¬ 100 ∣ y ∨ 400 ∣ y)) := by
  simp [isLeap, Nat.dvd_iff_mod_eq_zero, Bool.and_eq_true, Bool.or_eq_true,
    bne_iff_ne, beq_iff_eq]

theorem leapsBefore_succ (k : Nat) :
    leapsBefore (k + 1) = leapsBefore k + (if isLeap (k + 1) then 1 else 0) := by
  have e4 : (k + 1) / 4 = k / 4 + if 4 ∣ k + 1 then 1 else 0 := Nat.succ_div k 4
  have e100 : (k + 1) / 100 = k / 100 + if 100 ∣ k + 1 then 1 else 0 := Nat.succ_div k 100
  have e400 : (k + 1) / 400 = k / 400 + if 400 ∣ k + 1 then 1 else 0 := Nat.succ_div k 400
  have hle : k / 100 ≤ k / 4 := Nat.div_le_div_left (by norm_num) (by norm_num)
  have hd1 : 400 ∣ k + 1 → 100 ∣ k + 1 := fun h => dvd_trans ⟨4, by norm_num⟩ h
  have hd2 : 100 ∣ k + 1 → 4 ∣ k + 1 := fun h => dvd_trans ⟨25, by norm_num⟩ h
  by_cases c4 : 4 ∣ k + 1 <;> by_cases c100 : 100 ∣ k + 1 <;> by_cases c400 : 400 ∣ k + 1 <;>
    first
      | (exact absurd (hd1 c400) c100)
      | (exact absurd (hd2 c100) c4)
      | (have hIte : (if isLeap (k + 1) then (1 : Nat) else 0) = 1 := by
          simp [isLeap_iff, c4, c100, c400]
         rw [hIte]
         simp only [leapsBefore, e4, e100, e400]
         simp only [c4, c100, c400, if_true, if_false]
         omega)
      | (have hIte : (if isLeap (k + 1) then (1 : Nat) else 0) = 0 := by
          simp [isLeap_iff, c4, c100, c400]
         rw [hIte]
         simp only [leapsBefore, e4, e100, e400]
         simp only [c4, c100, c400, if_true, if_false]
         omega)

theorem daysBeforeYear_succ (y : Nat) (hy : 1 ≤ y) :
    daysBeforeYear (y + 1) = daysBeforeYear y + (if isLeap y then 366 else 365) := by
  obtain ⟨k, rfl⟩ : ∃ k, y = k + 1 := ⟨y - 1, by omega⟩
  show 365 * (k + 1 + 1 - 1) + leapsBefore (k + 1 + 1 - 1)
      = 365 * (k + 1 - 1) + leapsBefore (k + 1 - 1) + _
  simp only [Nat.add_sub_cancel]
  rw [leapsBefore_succ k]
  cases hL : isLeap (k + 1) <;> simp [hL] <;> ring

theorem daysInMonth_pos (y m : Nat) (h1 : 1 ≤ m) (h2 : m ≤ 12) :
    1 ≤ daysInMonth y m := by
  interval_cases m <;> cases hL : isLeap y <;> simp [daysInMonth, daysBefore, hL]

theorem daysInMonth_eq_spec (y m : Nat) (h1 : 1 ≤ m) (h2 : m ≤ 12) :
    daysInMonth y m = specDaysInMonth y m := by
  interval_cases m <;> cases hL : isLeap y <;>
    simp [daysInMonth, specDaysInMonth, daysBefore, hL]

theorem daysInMonth_le_31 (y m : Nat) (h1 : 1 ≤ m) (h2 : m ≤ 12) :
    daysInMonth y m ≤ 31 := by
  interval_cases m <;> cases hL : isLeap y <;> simp [daysInMonth, daysBefore, hL]

theorem normDays_id (y m d : Nat) (h : ¬ daysInMonth y m < d) :
    normDays y m d = ⟨y, m, d⟩ := by
  cases d with
  | zero => rfl
  | succ k =>
    show normDaysAux (k + 1) y m (k + 1) = _
    rw [normDaysAux]
    simp only [h, false_and, if_neg, not_false_iff]

theorem goDate_id (y m d : Nat) (hm1 : 1 ≤ m) (hm2 : m ≤ 12)
    (hd : ¬ daysInMonth y m < d) : goDate y m d = ⟨y, m, d⟩ := by
  unfold goDate
  have h1 : (m - 1) / 12 = 0 := Nat.div_eq_of_lt (by omega)
  have h2 : (m - 1) % 12 = m - 1 := Nat.mod_eq_of_lt (by omega)
  rw [h1, h2]
  have h3 : m - 1 + 1 = m := by omega
  rw [Nat.add_zero, h3]
  exact normDays_id y m d hd

theorem daysBeforeMonth_step (y m : Nat) (h1 : 1 ≤ m) (h2 : m ≤ 11) :
    daysBeforeMonth y (m + 1) = daysBeforeMonth y m + daysInMonth y m := by
  interval_cases m <;> cases hL : isLeap y <;>
    simp [daysBeforeMonth, daysInMonth, daysBefore, hL]

/-- Day difference first-of-this-month to first-of-next-month equals the
month length (the key fact behind `numdays` in `DrawCalendar`). -/
theorem toDays_next_month (y m : Nat) (hy : 1 ≤ y) (h1 : 1 ≤ m) (h2 : m ≤ 12) :
    toDays (goDate y (m + 1) 1) = toDays ⟨y, m, 1⟩ + daysInMonth y m := by
  rcases Nat.lt_or_ge m 12 with hlt | hge
  · -- months January..November: next month stays within the year
    have hnext : goDate y (m + 1) 1 = ⟨y, m + 1, 1⟩ := by
      apply goDate_id y (m + 1) 1 (by omega) (by omega)
      have := daysInMonth_pos y (m + 1) (by omega) (by omega)
      omega
    rw [hnext]
    show daysBeforeYear y + daysBeforeMonth y (m + 1) + (1 - 1)
        = daysBeforeYear y + daysBeforeMonth y m + (1 - 1) + daysInMonth y m
    rw [daysBeforeMonth_step y m h1 (by omega)]
    ring
  · -- December: next month is January of the following year
    have hm : m = 12 := by omega
    subst hm
    have hnext : goDate y 13 1 = ⟨y + 1, 1, 1⟩ := by
      unfold goDate
      norm_num
      exact normDays_id (y + 1) 1 1 (by simp [daysInMonth, daysBefore])
    rw [hnext]
    show daysBeforeYear (y + 1) + daysBeforeMonth (y + 1) 1 + (1 - 1)
        = daysBeforeYear y + daysBeforeMonth y 12 + (1 - 1) + daysInMonth y 12
    rw [daysBeforeYear_succ y hy]
    cases hL : isLeap y <;>
      simp [daysBeforeMonth, daysInMonth, daysBefore, hL]

/-! ## Colors and the calendar renderer -/

/-- An 8-bit RGBA color, modelling Go `color.Color` values. -/
structure GoColor where
  r : Nat
  g : Nat
  b : Nat
  a : Nat
deriving DecidableEq

/-- Go `var TextColor = color.Black`. -/
def TextColor : GoColor := ⟨0, 0, 0, 255⟩

/-- Go `var BackgroundColor = color.White`. -/
def BackgroundColor : GoColor := ⟨255, 255, 255, 255⟩

/-- Go `var HolidayColor = color.RGBA{255, 0, 0, 255}`. -/
def HolidayColor : GoColor := ⟨255, 0, 0, 255⟩

/-- The `Calendar` struct of the source (the unused `MonthLabels` and
`LinkFunc` fields are omitted; `Date` and `SelectedDate` are midnight
dates). -/
structure Calendar where
  WeekLabels : List String
  Date : GoDate
  IsDayOffFunc : GoDate → Bool
  SelectedDate : GoDate

/-- Go `DefaultIsDayOffFunc`: Sunday (0) or Saturday (6). -/
def DefaultIsDayOffFunc (t : GoDate) : Bool :=
  weekday t == 0 || weekday t == 6

/-- Record of one day cell drawn by `DrawCalendar`: the day number that is
printed, the weekday column `wd`, the pixel position of the cell, the fill
color of the selection rectangle (if this is the selected day), the color the
day number is drawn in, and whether an anniversary underline is drawn (always
in `TextColor`). -/
structure DayCell where
  day : Nat
  col : Nat
  xPos : Nat
  yTop : Nat
  fill : Option GoColor
  numColor : GoColor
  underline : Bool
deriving DecidableEq

/-- The body of `DrawCalendar`'s day loop for loop index `d` with current
vertical position `yv`: `day := start.AddDate(0, 0, d)` (i.e. `Date(Y, M,
1+d)`), `wd := int(day.Weekday())`, color selection, selection fill, day
number, anniversary underline. -/
def cellFor (Y M : Nat) (selected : Int) (dayOffF : GoDate → Bool)
    (afunc : Option (GoDate → Bool)) (x colsize : Nat) (d : Nat) (yv : Nat) : DayCell :=
  let day := goDate Y M (1 + d)
  let wd := weekday day
  let dayColor := if dayOffF day then HolidayColor else TextColor
  { day := day.day
    col := wd
    xPos := x + wd * colsize
    yTop := yv
    fill := if selected = (d : Int) then some dayColor else none
    numColor := if selected = (d : Int) then BackgroundColor else dayColor
    underline := match afunc with
      | some f => f day
      | none => false }

/-- The day loop of `DrawCalendar`: `n` iterations remain, `d` is the loop
index, `yv` the current row's top position; the position advances by one row
after each Saturday cell (`wd == 6`). -/
def drawDaysAux (Y M : Nat) (selected : Int) (dayOffF : GoDate → Bool)
    (afunc : Option (GoDate → Bool)) (x colsize rowsize : Nat) :
    Nat → Nat → Nat → List DayCell
  | 0, _, _ => []
  | n + 1, d, yv =>
    let cell := cellFor Y M selected dayOffF afunc x colsize d yv
    cell :: drawDaysAux Y M selected dayOffF afunc x colsize rowsize n (d + 1)
      (if weekday (goDate Y M (1 + d)) = 6 then yv + rowsize else yv)

/-- Go `DrawCalendar(img, c, x, y, w, h, afunc, label)`: the list of day
cells it draws.  `start` is the first of `c.Date`'s month, `numdays` the day
difference to the first of the next month, `selected` the day index of
`c.SelectedDate`; with `label` set, the grid shifts down by one row plus the
spacing.  (The week-label header drawing itself carries no day information
and is not part of the cell list.) -/
def DrawCalendar (c : Calendar) (x y w h : Nat)
    (afunc : Option (GoDate → Bool)) (label : Bool) : List DayCell :=
  let wc := c.WeekLabels.length
  let start := goDate c.Date.year c.Date.month 1
  let last := goDate start.year (start.month + 1) 1
  let numdays := goDiffDays last start
  let selected := goDiffDays c.SelectedDate start
  let space := 2
  let colsize := w / wc
  let rowsize := (h - space) / 7
  let y0 := if label then y + rowsize + space else y
  drawDaysAux start.year start.month selected c.IsDayOffFunc afunc x colsize rowsize
    numdays.toNat 0 y0

theorem drawDaysAux_length (Y M : Nat) (selected : Int) (dayOffF : GoDate → Bool)
    (afunc : Option (GoDate → Bool)) (x colsize rowsize : Nat) :
    ∀ n d yv, (drawDaysAux Y M selected dayOffF afunc x colsize rowsize n d yv).length = n := by
  intro n
  induction n with
  | zero => intro d yv; rfl
  | succ k ih => intro d yv; simp [drawDaysAux, ih]

theorem drawDaysAux_getElem? (Y M : Nat) (selected : Int) (dayOffF : GoDate → Bool)
    (afunc : Option (GoDate → Bool)) (x colsize rowsize : Nat) :
    ∀ n d yv i, i < n → ∃ yv',
      (drawDaysAux Y M selected dayOffF afunc x colsize rowsize n d yv)[i]? =
        some (cellFor Y M selected dayOffF afunc x colsize (d + i) yv') := by
  intro n
  induction n with
  | zero => intro d yv i h; omega
  | succ k ih =>
    intro d yv i h
    cases i with
    | zero => exact ⟨yv, by simp [drawDaysAux]⟩
    | succ j =>
      obtain ⟨yv', hy⟩ := ih (d + 1)
        (if weekday (goDate Y M (1 + d)) = 6 then yv + rowsize else yv) j (by omega)
      refine ⟨yv', ?_⟩
      have hidx : d + (j + 1) = d + 1 + j := by omega
      rw [hidx]
      simpa [drawDaysAux] using hy

theorem drawDaysAux_yTop_step (Y M : Nat) (selected : Int) (dayOffF : GoDate → Bool)
    (afunc : Option (GoDate → Bool)) (x colsize rowsize : Nat) :
    ∀ n d yv i c1 c2,
      (drawDaysAux Y M selected dayOffF afunc x colsize rowsize n d yv)[i]? = some c1 →
      (drawDaysAux Y M selected dayOffF afunc x colsize rowsize n d yv)[i + 1]? = some c2 →
      c2.yTop = c1.yTop + (if c1.col = 6 then rowsize else 0) := by
  intro n
  induction n with
  | zero => intro d yv i c1 c2 h1 h2; simp [drawDaysAux] at h1
  | succ k ih =>
    intro d yv i c1 c2 h1 h2
    cases i with
    | zero =>
      -- consecutive cells at positions 0 and 1
      have hc1 : c1 = cellFor Y M selected dayOffF afunc x colsize d yv := by
        simpa [drawDaysAux] using h1.symm
      cases k with
      | zero => simp [drawDaysAux] at h2
      | succ k' =>
        have hc2 : c2 = cellFor Y M selected dayOffF afunc x colsize (d + 1)
            (if weekday (goDate Y M (1 + d)) = 6 then yv + rowsize else yv) := by
          simpa [drawDaysAux] using h2.symm
        subst hc1 hc2
        simp only [cellFor]
        split <;> omega
    | succ j =>
      simp only [drawDaysAux, List.getElem?_cons_succ] at h1 h2
      exact ih (d + 1) (if weekday (goDate Y M (1 + d)) = 6 then yv + rowsize else yv)
        j c1 c2 h1 h2

/-- Go `var DefaultWeeekLabels` (sic). -/
def DefaultWeeekLabels : List String :=
  ["Sun", "Mon", "Tue", "Wed", "Thu", "Fri", "Sat"]

/-- Unfolding of `DrawCalendar` for a calendar whose date has a valid year
and month: the start is the first of the month, `numdays` equals the month
length, and `selected` is the day-number difference of the selected date. -/
theorem DrawCalendar_eq (cal : Calendar) (x y w h : Nat)
    (afunc : Option (GoDate → Bool)) (label : Bool)
    (hy : 1 ≤ cal.Date.year) (hm1 : 1 ≤ cal.Date.month) (hm2 : cal.Date.month ≤ 12) :
    DrawCalendar cal x y w h afunc label =
      drawDaysAux cal.Date.year cal.Date.month
        ((toDays cal.SelectedDate : Int) - toDays ⟨cal.Date.year, cal.Date.month, 1⟩)
        cal.IsDayOffFunc afunc x (w / cal.WeekLabels.length) ((h - 2) / 7)
        (daysInMonth cal.Date.year cal.Date.month) 0
        (if label then y + (h - 2) / 7 + 2 else y) := by
  have hstart : goDate cal.Date.year cal.Date.month 1 = ⟨cal.Date.year, cal.Date.month, 1⟩ := by
    apply goDate_id _ _ _ hm1 hm2
    have := daysInMonth_pos cal.Date.year cal.Date.month hm1 hm2
    omega
  unfold DrawCalendar
  simp only [hstart, goDiffDays_eq]
  rw [toDays_next_month cal.Date.year cal.Date.month hy hm1 hm2]
  congr 1
  push_cast
  omega

/-- C1.  For every valid (year, month) rendered by `DrawCalendar`, the number
of day cells equals the number of days of that month — `numdays` is computed
as the day difference between the first of this month and the first of the
next month, and equals the spec-side month length with leap-year February —
and the cell of day `i+1` sits in the weekday column given by the proleptic
Gregorian calendar (Sunday = 0). -/
theorem c1_date_grid (cal : Calendar) (x y w h : Nat)
    (afunc : Option (GoDate → Bool)) (label : Bool)
    (hy : 1 ≤ cal.Date.year) (hm1 : 1 ≤ cal.Date.month) (hm2 : cal.Date.month ≤ 12) :
    (DrawCalendar cal x y w h afunc label).length
        = specDaysInMonth cal.Date.year cal.Date.month ∧
    ∀ i ce, (DrawCalendar cal x y w h afunc label)[i]? = some ce →
      ce.day = i + 1 ∧ ce.col = weekday ⟨cal.Date.year, cal.Date.month, i + 1⟩ := by
  rw [DrawCalendar_eq cal x y w h afunc label hy hm1 hm2]
  constructor
  · rw [drawDaysAux_length]
    exact daysInMonth_eq_spec _ _ hm1 hm2
  · intro i ce hce
    have hlen := drawDaysAux_length cal.Date.year cal.Date.month
      ((toDays cal.SelectedDate : Int) - toDays ⟨cal.Date.year, cal.Date.month, 1⟩)
      cal.IsDayOffFunc afunc x (w / cal.WeekLabels.length) ((h - 2) / 7)
      (daysInMonth cal.Date.year cal.Date.month) 0
      (if label then y + (h - 2) / 7 + 2 else y)
    have hlt : i < daysInMonth cal.Date.year cal.Date.month := by
      by_contra hge
      rw [List.getElem?_eq_none (by rw [hlen]; omega)] at hce
      simp at hce
    obtain ⟨yv', hcell⟩ := drawDaysAux_getElem? cal.Date.year cal.Date.month
      ((toDays cal.SelectedDate : Int) - toDays ⟨cal.Date.year, cal.Date.month, 1⟩)
      cal.IsDayOffFunc afunc x (w / cal.WeekLabels.length) ((h - 2) / 7)
      (daysInMonth cal.Date.year cal.Date.month) 0
      (if label then y + (h - 2) / 7 + 2 else y) i hlt
    rw [hcell] at hce
    have hday : goDate cal.Date.year cal.Date.month (1 + (0 + i))
        = ⟨cal.Date.year, cal.Date.month, i + 1⟩ := by
      have h1i : 1 + (0 + i) = i + 1 := by omega
      rw [h1i]
      exact goDate_id _ _ _ hm1 hm2 (by omega)
    have hc : ce = cellFor cal.Date.year cal.Date.month
        ((toDays cal.SelectedDate : Int) - toDays ⟨cal.Date.year, cal.Date.month, 1⟩)
        cal.IsDayOffFunc afunc x (w / cal.WeekLabels.length) (0 + i) yv' :=
      (Option.some.inj hce).symm
    subst hc
    simp only [cellFor, hday]
    exact ⟨trivial, trivial⟩

/-- Concrete instance of `c1_date_grid`: the February 2024 page (leap year)
has exactly 29 cells and Feb 4 (cell index 3) sits in column 0 (Sunday). -/
theorem c1_date_grid_witness :
    (DrawCalendar ⟨DefaultWeeekLabels, ⟨2024, 2, 3⟩, DefaultIsDayOffFunc, ⟨2024, 2, 3⟩⟩
        500 40 280 200 none true).length = 29 := by
  have h := (c1_date_grid ⟨DefaultWeeekLabels, ⟨2024, 2, 3⟩, DefaultIsDayOffFunc, ⟨2024, 2, 3⟩⟩
    500 40 280 200 none true (by decide) (by decide) (by decide)).1
  rw [h]
  decide

/-! ## String helpers (structural, so they evaluate by kernel reduction)

The Go standard-library string functions used by the source are modelled by
structurally recursive functions on `List Char`.  `strings.Split` is only
ever called with a single-character separator. -/

/-- Split a character list at every occurrence of `sep`; always returns a
nonempty list of groups (Go `strings.Split` semantics for one-char
separators, including `Split("", sep) = [""]`). -/
def splitOnChar (sep : Char) : List Char → List (List Char)
  | [] => [[]]
  | c :: rest =>
    let r := splitOnChar sep rest
    if c = sep then [] :: r
    else
      match r with
      | [] => [[c]]
      | g :: gs => (c :: g) :: gs

/-- Go `strings.Split(s, sep)` for a one-character separator. -/
def stringSplitChar (sep : Char) (s : String) : List String :=
  (splitOnChar sep s.toList).map (fun l => String.mk l)

/-- ASCII whitespace test (the labels in holiday/anniversary files only carry
ASCII padding; Go `strings.TrimSpace` also trims Unicode spaces). -/
def isSpaceChar (c : Char) : Bool :=
  c = ' ' ∨ c = '\t' ∨ c = '\n' ∨ c = '\r'

/-- Go `strings.TrimSpace`. -/
def goTrimSpace (s : String) : String :=
  String.mk (((s.toList.dropWhile isSpaceChar).reverse.dropWhile isSpaceChar).reverse)

/-- Go `strings.ToLower` (the source only lowercases ASCII file
extensions). -/
def goToLower (s : String) : String :=
  String.mk (s.toList.map Char.toLower)

def isDigitChar (c : Char) : Bool :=
  ('0' ≤ c && c ≤ '9')

/-- Numeric value of a digit string. -/
def digitsVal (l : List Char) : Nat :=
  l.foldl (fun a c => a * 10 + (c.toNat - ('0').toNat)) 0

/-- Mathematical value of an integer literal with optional sign, or `none` on
a syntax error (Go `strconv.ParseInt` syntax: `[+-]?digits`, base 10). -/
def parseIntVal (s : String) : Option Int :=
  let core : Int → List Char → Option Int := fun sign ds =>
    if ds ≠ [] ∧ ds.all isDigitChar then some (sign * (digitsVal ds : Int)) else none
  match s.toList with
  | [] => none
  | c :: rest =>
    if c = '+' then core 1 rest
    else if c = '-' then core (-1) rest
    else core 1 (c :: rest)

/-- Go `strconv.ParseInt(s, 10, bits)` with the error discarded, as the
source does: syntax errors yield 0, out-of-range values are clamped to the
`bits`-bit signed range. -/
def goParseInt (bits : Nat) (s : String) : Int :=
  match parseIntVal s with
  | none => 0
  | some v =>
    let hi : Int := 2 ^ (bits - 1) - 1
    let lo : Int := -(2 ^ (bits - 1))
    if v > hi then hi else if v < lo then lo else v

/-- Go `strconv.Atoi` with the error discarded (`int` is 64-bit). -/
def goAtoi (s : String) : Int :=
  goParseInt 64 s

/-! ## DateEntry, day-off and anniversary classification -/

/-- The `DateEntry` struct of the source.  Wildcards from `UnmarshalText`
are the sentinel value -1 in `year` / `month`. -/
structure DateEntry where
  year : Int
  month : Int
  day : Int
  label : String
deriving DecidableEq

/-- Go `DateEntry.Key()`: the `[3]int` map key. -/
def DateEntry.Key (e : DateEntry) : Int × Int × Int :=
  (e.year, e.month, e.day)

/-- Go `DateEntry.UnmarshalText`: split the line on `,`; split the first
field on `/`, falling back to `-`; if neither yields three fields, leave the
receiver `d0` unchanged (and report no error).  Otherwise parse the three
numbers with errors ignored, turn `*` in the year or month position into the
wildcard -1, and take the trimmed second field as label when present. -/
def DateEntry.UnmarshalText (d0 : DateEntry) (ent : String) : DateEntry :=
  let row := stringSplitChar (',') ent
  let r0 := row.headD ("")
  let date0 := stringSplitChar ('/') r0
  let date := if date0.length ≠ 3 then stringSplitChar ('-') r0 else date0
  if date.length ≠ 3 then d0
  else
    let s0 := date.getD 0 ("")
    let s1 := date.getD 1 ("")
    let s2 := date.getD 2 ("")
    let yy := if s0 = "*" then (-1 : Int) else goParseInt 32 s0
    let mm := if s1 = "*" then (-1 : Int) else goParseInt 32 s1
    let dd := goParseInt 32 s2
    { year := yy, month := mm, day := dd
      label := if 2 ≤ row.length then goTrimSpace (row.getD 1 ("")) else d0.label }

/-- The day-off predicate that `writeImage` installs on the calendar:
weekend via `DefaultIsDayOffFunc`, otherwise membership of the exact
(year, month, day) key in the loaded holiday map (map lookup modelled as key
membership). -/
def writeImageIsDayOff (holidays : List (Int × Int × Int)) (d : GoDate) : Bool :=
  if DefaultIsDayOffFunc d then true
  else decide (((d.year : Int), (d.month : Int), (d.day : Int)) ∈ holidays)

/-- The anniversary predicate of `writeImage`: try the exact key, then the
wildcard-year key, then the wildcard-year-and-month key. -/
def anniversaryFunc (anniversary : List (Int × Int × Int)) (day : GoDate) : Bool :=
  if decide (((day.year : Int), (day.month : Int), (day.day : Int)) ∈ anniversary) then true
  else if decide (((-1 : Int), (day.month : Int), (day.day : Int)) ∈ anniversary) then true
  else if decide (((-1 : Int), (-1 : Int), (day.day : Int)) ∈ anniversary) then true
  else false

/-- C2.  The rendering day-off predicate is true exactly on Saturdays,
Sundays, and dates whose exact (year, month, day) key is in the loaded
holiday set. -/
theorem c2_day_off (holidays : List (Int × Int × Int)) (d : GoDate) :
    writeImageIsDayOff holidays d = true ↔
      (weekday d = 6 ∨ weekday d = 0 ∨
        ((d.year : Int), (d.month : Int), (d.day : Int)) ∈ holidays) := by
  unfold writeImageIsDayOff DefaultIsDayOffFunc
  split
  case isTrue h =>
    simp only [Bool.or_eq_true, beq_iff_eq] at h
    simp only [true_iff]
    tauto
  case isFalse h =>
    simp only [Bool.or_eq_true, beq_iff_eq] at h
    push_neg at h
    simp [h.1, h.2]

/-- C3.  The anniversary predicate holds iff the set contains the exact
(y, m, d) key, the wildcard-year (-1, m, d) key, or the wildcard-year-month
(-1, -1, d) key.  In particular an exact entry for 2024-12-25 does not match
2025-12-25, while a wildcard-year entry parsed from `*/12/25` does, and a
(-1, -1, 1) entry matches the first of every month of every year. -/
theorem c3_anniversary :
    (∀ (A : List (Int × Int × Int)) (d : GoDate),
        anniversaryFunc A d = true ↔
          (((d.year : Int), (d.month : Int), (d.day : Int)) ∈ A ∨
            ((-1 : Int), (d.month : Int), (d.day : Int)) ∈ A ∨
            ((-1 : Int), (-1 : Int), (d.day : Int)) ∈ A)) ∧
    anniversaryFunc [((2024 : Int), (12 : Int), (25 : Int))] ⟨2025, 12, 25⟩ = false ∧
    (∀ y m : Nat, anniversaryFunc [((-1 : Int), (-1 : Int), (1 : Int))] ⟨y, m, 1⟩ = true) ∧
    (DateEntry.UnmarshalText ⟨0, 0, 0, ""⟩ ("*/12/25,Xmas")).Key = (-1, 12, 25) ∧
    anniversaryFunc [(DateEntry.UnmarshalText ⟨0, 0, 0, ""⟩ ("*/12/25,Xmas")).Key]
      ⟨2025, 12, 25⟩ = true := by
  refine ⟨?_, by decide, ?_, by decide, by decide⟩
  · intro A d
    unfold anniversaryFunc
    split
    case isTrue h => simp only [decide_eq_true_eq] at h; simp [h]
    case isFalse h =>
      split
      case isTrue h2 => simp only [decide_eq_true_eq] at h2; simp [h2]
      case isFalse h2 =>
        split
        case isTrue h3 => simp only [decide_eq_true_eq] at h3; simp [h3]
        case isFalse h3 =>
          simp only [decide_eq_true_eq] at h h2 h3
          simp [h, h2, h3]
  · intro y m
    unfold anniversaryFunc
    simp

/-! ## Configuration (CalendarConfig, Merge, resolution in writeImage) -/

/-- The `CalendarConfig` struct of the source.  A Go nil slice / nil pointer
is `none`; a present (possibly empty) slice is `some`. -/
structure CalendarConfig where
  Width : Int
  Height : Int
  Font : String
  Holiday : String
  Anniversary : Option (List DateEntry)
  DayCountSince : Option DateEntry
deriving DecidableEq

/-- The `Anniversary` part of `Merge`: Go's
`if conf.Anniversary != nil { c.Anniversary = append(c.Anniversary, conf.Anniversary...) }`.
A nil incoming slice is a no-op; appending zero elements returns the old
slice unchanged (nil stays nil); otherwise the incoming entries are appended
after the existing ones. -/
def mergeAnniversary (old incoming : Option (List DateEntry)) : Option (List DateEntry) :=
  match incoming with
  | none => old
  | some [] => old
  | some a => some (old.getD [] ++ a)

/-- Go `CalendarConfig.Merge`: a nil argument is a no-op; each scalar field
is overwritten when the incoming value is non-zero / non-empty;
`DayCountSince` is overwritten when non-nil; `Anniversary` follows
`mergeAnniversary` (append, not replace). -/
def CalendarConfig.Merge (c : CalendarConfig) (conf : Option CalendarConfig) : CalendarConfig :=
  match conf with
  | none => c
  | some conf =>
    { Width := if conf.Width ≠ 0 then conf.Width else c.Width
      Height := if conf.Height ≠ 0 then conf.Height else c.Height
      Font := if conf.Font ≠ "" then conf.Font else c.Font
      Holiday := if conf.Holiday ≠ "" then conf.Holiday else c.Holiday
      Anniversary := mergeAnniversary c.Anniversary conf.Anniversary
      DayCountSince :=
        match conf.DayCountSince with
        | none => c.DayCountSince
        | some e => some e }

/-- The config resolution of `writeImage`: start from the built-in defaults
(800×480, everything else empty), merge the "default" kind, then the
requested kind when it is not literally "default".  `confMap` models the
decoded `config.toml` table. -/
def resolveConfig (confMap : String → Option CalendarConfig) (confName : String) :
    CalendarConfig :=
  let c0 : CalendarConfig := ⟨800, 480, "", "", none, none⟩
  let c1 := CalendarConfig.Merge c0 (confMap ("default"))
  if confName ≠ "default" then CalendarConfig.Merge c1 (confMap confName) else c1

def exDefaultEntry : DateEntry := ⟨2020, 1, 1, "a"⟩

def exWorkEntry : DateEntry := ⟨2021, 2, 2, "b"⟩

/-- Concrete config table: kind "default" and kind "work" each set one
anniversary entry. -/
def exConfMap : String → Option CalendarConfig := fun s =>
  if s = "default" then some ⟨0, 0, "", "", some [exDefaultEntry], none⟩
  else if s = "work" then some ⟨0, 0, "", "", some [exWorkEntry], none⟩
  else none

/-- C5 counterexample.  The claim says the kind-specific value wins for
every field whenever it is present; but for the `Anniversary` field the
resolved value is the default kind's list with the "work" kind's list
appended, not the "work" kind's list. -/
theorem c5_config_counterexample :
    (resolveConfig exConfMap ("work")).Anniversary = some [exDefaultEntry, exWorkEntry] ∧
    some [exDefaultEntry, exWorkEntry] ≠ (exConfMap ("work")).bind CalendarConfig.Anniversary ∧
    (exConfMap ("work")).bind CalendarConfig.Anniversary = some [exWorkEntry] := by
  refine ⟨by decide, by decide, by decide⟩

/-- C5 as amended.  Resolution is field-level for Width, Height, Font,
Holiday and DayCountSince: the kind's value is used when set, else the
default kind's when set, else the built-in default.  The Anniversary field
accumulates instead: a non-empty kind list is appended after the default
kind's entries. -/
theorem c5_config_amended (confMap : String → Option CalendarConfig)
    (confName : String) (dc kc : CalendarConfig)
    (hname : confName ≠ "default")
    (hdc : confMap ("default") = some dc) (hkc : confMap confName = some kc) :
    (resolveConfig confMap confName).Width
        = (if kc.Width ≠ 0 then kc.Width else if dc.Width ≠ 0 then dc.Width else 800) ∧
    (resolveConfig confMap confName).Height
        = (if kc.Height ≠ 0 then kc.Height else if dc.Height ≠ 0 then dc.Height else 480) ∧
    (resolveConfig confMap confName).Font
        = (if kc.Font ≠ "" then kc.Font else dc.Font) ∧
    (resolveConfig confMap confName).Holiday
        = (if kc.Holiday ≠ "" then kc.Holiday else dc.Holiday) ∧
    (resolveConfig confMap confName).DayCountSince
        = (match kc.DayCountSince with
            | some e => some e
            | none => dc.DayCountSince) ∧
    (resolveConfig confMap confName).Anniversary
        = mergeAnniversary (mergeAnniversary none dc.Anniversary) kc.Anniversary := by
  have hres : resolveConfig confMap confName
      = CalendarConfig.Merge
          (CalendarConfig.Merge ⟨800, 480, "", "", none, none⟩ (some dc)) (some kc) := by
    unfold resolveConfig
    simp only [hdc, hkc, ne_eq, hname, not_false_iff, if_true, ite_true]
  rw [hres]
  unfold CalendarConfig.Merge
  refine ⟨?_, ?_, ?_, ?_, ?_, ?_⟩
  · by_cases h1 : kc.Width = 0 <;> by_cases h2 : dc.Width = 0 <;> simp [h1, h2]
  · by_cases h1 : kc.Height = 0 <;> by_cases h2 : dc.Height = 0 <;> simp [h1, h2]
  · by_cases h1 : kc.Font = "" <;> by_cases h2 : dc.Font = "" <;> simp [h1, h2]
  · by_cases h1 : kc.Holiday = "" <;> by_cases h2 : dc.Holiday = "" <;> simp [h1, h2]
  · cases hk : kc.DayCountSince <;> cases hd : dc.DayCountSince <;> simp [hk, hd]
  · rfl

/-- Concrete instance of `c5_config_amended` at the example table: the
"work" kind leaves Width unset, so the resolved Width is the built-in 800,
and the anniversaries concatenate. -/
theorem c5_config_amended_witness :
    (resolveConfig exConfMap ("work")).Width = 800 ∧
    (resolveConfig exConfMap ("work")).Anniversary = some [exDefaultEntry, exWorkEntry] := by
  obtain ⟨hw, -, -, -, -, hann⟩ := c5_config_amended exConfMap ("work")
    ⟨0, 0, "", "", some [exDefaultEntry], none⟩ ⟨0, 0, "", "", some [exWorkEntry], none⟩
    (by decide) (by decide) (by decide)
  constructor
  · rw [hw]; decide
  · rw [hann]; decide

/-! ## The count-since block of writeImage -/

/-- Go `DateEntry.Date(l)`: `time.Date(e.Year, e.Month, e.Day, 0, 0, 0, 0, l)`
for a valid entry (positive year, month 1..12, day within the month; the
count-since reference date in a config file is such a date). -/
def DateEntry.Date (e : DateEntry) : GoDate :=
  goDate e.year.toNat e.month.toNat e.day.toNat

/-- Number of whole 24-hour periods between the midnights of `R` and `S`,
truncated toward zero, as the specification defines the elapsed-day count.
Midnights are a whole number of days apart, so this is exactly the
day-number difference. -/
def specElapsedDays (S R : GoDate) : Int :=
  (toDays S : Int) - (toDays R : Int)

/-- The count-since block of `writeImage`: drawn only when `DayCountSince`
is configured, with value `int(cal.SelectedDate.Sub(since.Date(...)).Hours()) / 24`
(`cal.SelectedDate` is the request's selected date, unchanged by
`NextMonth`). -/
def dayCountDrawn (conf : CalendarConfig) (selected : GoDate) : Option Int :=
  conf.DayCountSince.map fun since => goDiffDays selected since.Date

/-- C6.  When a reference date is configured, the elapsed-day number drawn
for selected date `S` is the truncated count of whole 24-hour periods
between the reference midnight and `S`'s midnight; when none is configured,
the block is not drawn at all. -/
theorem c6_day_count (conf : CalendarConfig) (sel : GoDate) :
    (∀ e : DateEntry, conf.DayCountSince = some e →
      dayCountDrawn conf sel = some (specElapsedDays sel e.Date)) ∧
    (conf.DayCountSince = none → dayCountDrawn conf sel = none) := by
  constructor
  · intro e he
    simp [dayCountDrawn, he, goDiffDays_eq, specElapsedDays]
  · intro he
    simp [dayCountDrawn, he]

/-- Concrete instance of `c6_day_count`, the specification's example: with
reference 2020-01-01 and selected date 2020-01-11 the drawn count is 10, and
with no reference nothing is drawn. -/
theorem c6_day_count_witness :
    dayCountDrawn ⟨800, 480, "", "", none, some ⟨2020, 1, 1, "x"⟩⟩ ⟨2020, 1, 11⟩
        = some 10 ∧
    dayCountDrawn ⟨800, 480, "", "", none, none⟩ ⟨2020, 1, 11⟩ = none := by
  constructor
  · have h := (c6_day_count ⟨800, 480, "", "", none, some ⟨2020, 1, 1, "x"⟩⟩
      ⟨2020, 1, 11⟩).1 ⟨2020, 1, 1, "x"⟩ rfl
    rw [h]
    decide
  · exact (c6_day_count ⟨800, 480, "", "", none, none⟩ ⟨2020, 1, 11⟩).2 rfl

/-! ## Per-cell characterization helpers for DrawCalendar -/

/-- Any cell produced by `DrawCalendar` on a valid month is a `cellFor` of
its index, and indices stay below the month length. -/
theorem DrawCalendar_cell (cal : Calendar) (x y w h : Nat)
    (afunc : Option (GoDate → Bool)) (label : Bool)
    (hy : 1 ≤ cal.Date.year) (hm1 : 1 ≤ cal.Date.month) (hm2 : cal.Date.month ≤ 12)
    (i : Nat) (ce : DayCell)
    (hce : (DrawCalendar cal x y w h afunc label)[i]? = some ce) :
    i < daysInMonth cal.Date.year cal.Date.month ∧
    ∃ yv', ce = cellFor cal.Date.year cal.Date.month
        ((toDays cal.SelectedDate : Int) - toDays ⟨cal.Date.year, cal.Date.month, 1⟩)
        cal.IsDayOffFunc afunc x (w / cal.WeekLabels.length) (0 + i) yv' := by
  rw [DrawCalendar_eq cal x y w h afunc label hy hm1 hm2] at hce
  have hlen := drawDaysAux_length cal.Date.year cal.Date.month
    ((toDays cal.SelectedDate : Int) - toDays ⟨cal.Date.year, cal.Date.month, 1⟩)
    cal.IsDayOffFunc afunc x (w / cal.WeekLabels.length) ((h - 2) / 7)
    (daysInMonth cal.Date.year cal.Date.month) 0
    (if label then y + (h - 2) / 7 + 2 else y)
  have hlt : i < daysInMonth cal.Date.year cal.Date.month := by
    by_contra hge
    rw [List.getElem?_eq_none (by rw [hlen]; omega)] at hce
    simp at hce
  obtain ⟨yv', hcell⟩ := drawDaysAux_getElem? cal.Date.year cal.Date.month
    ((toDays cal.SelectedDate : Int) - toDays ⟨cal.Date.year, cal.Date.month, 1⟩)
    cal.IsDayOffFunc afunc x (w / cal.WeekLabels.length) ((h - 2) / 7)
    (daysInMonth cal.Date.year cal.Date.month) 0
    (if label then y + (h - 2) / 7 + 2 else y) i hlt
  rw [hcell] at hce
  exact ⟨hlt, yv', (Option.some.inj hce).symm⟩

/-- The day drawn at loop index `i` of a valid month is day `i + 1` of that
month. -/
theorem goDate_cell (y m i : Nat) (hm1 : 1 ≤ m) (hm2 : m ≤ 12)
    (hi : i < daysInMonth y m) :
    goDate y m (1 + (0 + i)) = ⟨y, m, i + 1⟩ := by
  have h1i : 1 + (0 + i) = i + 1 := by omega
  rw [h1i]
  exact goDate_id y m (i + 1) hm1 hm2 (by omega)

/-- The February 2024 calendar with the (Saturday) leap-month day 3 selected,
default Sunday-first labels. -/
def cal4 : Calendar :=
  ⟨DefaultWeeekLabels, ⟨2024, 2, 3⟩, DefaultIsDayOffFunc, ⟨2024, 2, 3⟩⟩

/-- C4 counterexample.  The claim says the selected cell is filled with the
base text color regardless of day-off status; but `DrawCalendar` fills with
the color chosen in step (1), which is the accent color when the selected day
is a day-off.  2024-02-03 is a Saturday: its cell is filled with
`HolidayColor`, not `TextColor`. -/
theorem c4_selected_fill_counterexample :
    (∃ ce ∈ DrawCalendar cal4 500 40 280 200 none true,
        ce.fill = some HolidayColor ∧ ce.numColor = BackgroundColor) ∧
    HolidayColor ≠ TextColor ∧
    ¬ (∀ ce ∈ DrawCalendar cal4 500 40 280 200 none true,
        ce.fill ≠ none → ce.fill = some TextColor) := by
  refine ⟨by decide, by decide, by decide⟩

/-- C4 as amended.  The selected day's cell is filled with the color chosen
for the day — the accent color when the day is a day-off, otherwise the base
text color — and its day number is drawn in the background color; all other
cells have no fill and their number in the day's color. -/
theorem c4_selected_fill_amended (cal : Calendar) (x y w h : Nat)
    (afunc : Option (GoDate → Bool)) (label : Bool)
    (hy : 1 ≤ cal.Date.year) (hm1 : 1 ≤ cal.Date.month) (hm2 : cal.Date.month ≤ 12) :
    ∀ (i : Nat) (ce : DayCell), (DrawCalendar cal x y w h afunc label)[i]? = some ce →
      (ce.fill, ce.numColor) =
        (if (toDays cal.SelectedDate : Int)
              - (toDays (⟨cal.Date.year, cal.Date.month, 1⟩ : GoDate) : Int) = (i : Int)
          then (some (if cal.IsDayOffFunc ⟨cal.Date.year, cal.Date.month, i + 1⟩
                  then HolidayColor else TextColor), BackgroundColor)
          else (none, if cal.IsDayOffFunc ⟨cal.Date.year, cal.Date.month, i + 1⟩
                  then HolidayColor else TextColor)) := by
  intro i ce hce
  obtain ⟨hlt, yv', rfl⟩ := DrawCalendar_cell cal x y w h afunc label hy hm1 hm2 i ce hce
  have hday := goDate_cell cal.Date.year cal.Date.month i hm1 hm2 hlt
  have hcast : ((0 + i : Nat) : Int) = (i : Int) := by push_cast; ring
  simp only [cellFor, hday, hcast]
  by_cases hsel : (toDays cal.SelectedDate : Int)
      - (toDays (⟨cal.Date.year, cal.Date.month, 1⟩ : GoDate) : Int) = (i : Int)
  · simp [hsel]
  · simp [hsel]

/-- Concrete instance of `c4_selected_fill_amended`: the selected Saturday
2024-02-03 (cell index 2) is filled with the accent color and its number
drawn in the background color. -/
theorem c4_selected_fill_amended_witness :
    ((DrawCalendar cal4 500 40 280 200 none true)[2]?).map
        (fun ce => (ce.fill, ce.numColor))
      = some (some HolidayColor, BackgroundColor) := by
  have hcell : (DrawCalendar cal4 500 40 280 200 none true)[2]?
      = some ⟨3, 6, 740, 70, some HolidayColor, BackgroundColor, false⟩ := by decide
  have h := c4_selected_fill_amended cal4 500 40 280 200 none true
    (by decide) (by decide) (by decide) 2 _ hcell
  rw [hcell]
  show some ((⟨3, 6, 740, 70, some HolidayColor, BackgroundColor, false⟩ : DayCell).fill,
      (⟨3, 6, 740, 70, some HolidayColor, BackgroundColor, false⟩ : DayCell).numColor) = _
  rw [h]

/-- A Monday-first week-label ordering (the spec's custom-ordering edge
case). -/
def mondayLabels : List String :=
  ["Mon", "Tue", "Wed", "Thu", "Fri", "Sat", "Sun"]

/-- February 2024 calendar with Monday-first labels, day 1 selected. -/
def mondayCal : Calendar :=
  ⟨mondayLabels, ⟨2024, 2, 1⟩, DefaultIsDayOffFunc, ⟨2024, 2, 1⟩⟩

/-- C9 counterexample.  With Monday-first labels, 2024-02-04 is a Sunday,
whose index in the supplied ordering is 6 — but `DrawCalendar` places it in
column 0 (`wd := int(day.Weekday())`, which ignores the label ordering). -/
theorem c9_week_columns_counterexample :
    ((DrawCalendar mondayCal 500 40 280 200 none true)[3]?).map
        (fun ce => (ce.day, ce.col)) = some (4, 0) ∧
    List.indexOf (DefaultWeeekLabels.getD (weekday ⟨2024, 2, 4⟩) ("")) mondayLabels = 6 ∧
    (0 : Nat) ≠ 6 := by
  refine ⟨by decide, by decide, by decide⟩

/-- C9 as amended.  For every week-label list, `DrawCalendar` places each
day in the column `int(day.Weekday())` of the proleptic Gregorian calendar
(Sunday = 0), independent of the label ordering (the labels only determine
the column width), and the vertical position advances to a new row exactly
after a cell in column 6 (Saturday). -/
theorem c9_week_columns_amended (cal : Calendar) (x y w h : Nat)
    (afunc : Option (GoDate → Bool)) (label : Bool)
    (hy : 1 ≤ cal.Date.year) (hm1 : 1 ≤ cal.Date.month) (hm2 : cal.Date.month ≤ 12) :
    (∀ (i : Nat) (ce : DayCell), (DrawCalendar cal x y w h afunc label)[i]? = some ce →
        ce.col = weekday ⟨cal.Date.year, cal.Date.month, i + 1⟩) ∧
    (∀ (i : Nat) (c1 c2 : DayCell),
        (DrawCalendar cal x y w h afunc label)[i]? = some c1 →
        (DrawCalendar cal x y w h afunc label)[i + 1]? = some c2 →
        c2.yTop = c1.yTop + (if c1.col = 6 then (h - 2) / 7 else 0)) ∧
    (∀ (labels2 : List String) (i : Nat) (c1 c2 : DayCell),
        (DrawCalendar cal x y w h afunc label)[i]? = some c1 →
        (DrawCalendar { cal with WeekLabels := labels2 } x y w h afunc label)[i]? = some c2 →
        c2.col = c1.col) := by
  refine ⟨?_, ?_, ?_⟩
  · intro i ce hce
    obtain ⟨hlt, yv', rfl⟩ := DrawCalendar_cell cal x y w h afunc label hy hm1 hm2 i ce hce
    have hday := goDate_cell cal.Date.year cal.Date.month i hm1 hm2 hlt
    simp only [cellFor, hday]
  · intro i c1 c2 h1 h2
    rw [DrawCalendar_eq cal x y w h afunc label hy hm1 hm2] at h1 h2
    exact drawDaysAux_yTop_step cal.Date.year cal.Date.month
      ((toDays cal.SelectedDate : Int) - toDays ⟨cal.Date.year, cal.Date.month, 1⟩)
      cal.IsDayOffFunc afunc x (w / cal.WeekLabels.length) ((h - 2) / 7)
      (daysInMonth cal.Date.year cal.Date.month) 0
      (if label then y + (h - 2) / 7 + 2 else y) i c1 c2 h1 h2
  · intro labels2 i c1 c2 h1 h2
    obtain ⟨hlt1, yv1, rfl⟩ := DrawCalendar_cell cal x y w h afunc label hy hm1 hm2 i c1 h1
    obtain ⟨hlt2, yv2, rfl⟩ := DrawCalendar_cell { cal with WeekLabels := labels2 }
      x y w h afunc label hy hm1 hm2 i c2 h2
    simp only [cellFor]

/-- Concrete instance of `c9_week_columns_amended`: with Monday-first labels
the cell of 2024-02-04 still gets column `weekday 2024-02-04 = 0`, and the
row advances right after the Saturday cell (index 2). -/
theorem c9_week_columns_amended_witness :
    ((DrawCalendar mondayCal 500 40 280 200 none true)[3]?).map DayCell.col
        = some (weekday ⟨2024, 2, 4⟩) ∧
    ((DrawCalendar mondayCal 500 40 280 200 none true)[3]?).map DayCell.yTop
        = some (70 + (200 - 2) / 7) := by
  have hc2 : (DrawCalendar mondayCal 500 40 280 200 none true)[2]?
      = some ⟨3, 6, 740, 70, none, HolidayColor, false⟩ := by decide
  have hc3 : (DrawCalendar mondayCal 500 40 280 200 none true)[3]?
      = some ⟨4, 0, 500, 98, none, HolidayColor, false⟩ := by decide
  have hcol := (c9_week_columns_amended mondayCal 500 40 280 200 none true
    (by decide) (by decide) (by decide)).1 3 _ hc3
  have hrow := (c9_week_columns_amended mondayCal 500 40 280 200 none true
    (by decide) (by decide) (by decide)).2.1 2 _ _ hc2 hc3
  constructor
  · rw [hc3]
    show some ((⟨4, 0, 500, 98, none, HolidayColor, false⟩ : DayCell).col) = _
    rw [hcol]
    rfl
  · rw [hc3]
    show some ((⟨4, 0, 500, 98, none, HolidayColor, false⟩ : DayCell).yTop) = _
    rw [hrow]
    decide

/-! ## Path parsing (Go `path` package semantics, `parsePath`) -/

/-- Remove trailing slashes (first loop of Go `path.Base`). -/
def dropTrailingSlashes (l : List Char) : List Char :=
  (l.reverse.dropWhile (fun c => c = '/')).reverse

/-- The segment after the last slash. -/
def afterLastSlash (l : List Char) : List Char :=
  (l.reverse.takeWhile (fun c => c != '/')).reverse

/-- Go `path.Base`: "." for the empty path, "/" for all-slash paths, else
the last element with trailing slashes removed. -/
def pathBase (p : String) : String :=
  if p = "" then "."
  else if afterLastSlash (dropTrailingSlashes p.toList) = [] then "/"
  else String.mk (afterLastSlash (dropTrailingSlashes p.toList))

/-- Go `path.Ext`: scan backwards from the end up to the last slash; the
suffix from the final dot, or "" if there is none. -/
def pathExtAux (acc : List Char) : List Char → List Char
  | [] => []
  | c :: rest =>
    if c = '/' then []
    else if c = '.' then ('.' :: acc)
    else pathExtAux (c :: acc) rest

def pathExt (p : String) : String :=
  String.mk (pathExtAux [] p.toList.reverse)

/-- Go `path.Clean` (documented lexical semantics): collapse multiple
slashes, drop `.` elements, resolve `..` against preceding elements and drop
it at the root; empty cleaned paths become ".". -/
def pathClean (p : String) : String :=
  if p = "" then "."
  else
    let l := p.toList
    let rooted : Bool :=
      match l with
      | '/' :: _ => true
      | _ => false
    let comps := (splitOnChar ('/') l).filter
      (fun c => decide (c ≠ [] ∧ c ≠ ['.']))
    let stack := comps.foldl
      (fun st c =>
        if c = ['.', '.'] then
          match st with
          | [] => if rooted then [] else [c]
          | top :: rest => if top = ['.', '.'] then c :: st else rest
        else c :: st) []
    let body := List.intercalate ['/'] stack.reverse
    if rooted then String.mk ('/' :: body)
    else if body = [] then "." else String.mk body

/-- Go `path.Dir`: everything up to (and including) the final slash, then
`Clean`; "." when there is no slash. -/
def pathDir (p : String) : String :=
  pathClean (String.mk ((p.toList.reverse.dropWhile (fun c => c != '/')).reverse))

/-- Go `time.ParseInLocation("2006-01-02", name, loc)` restricted to its
success/failure behavior: exactly `dddd-dd-dd`, month 1..12, day within the
(leap-aware) month. -/
def goParseDate (s : String) : Option GoDate :=
  match s.toList with
  | [y1, y2, y3, y4, c1, m1, m2, c2, d1, d2] =>
    if c1 = '-' ∧ c2 = '-' ∧ [y1, y2, y3, y4, m1, m2, d1, d2].all isDigitChar = true then
      let y := digitsVal [y1, y2, y3, y4]
      let m := digitsVal [m1, m2]
      let d := digitsVal [d1, d2]
      if 1 ≤ m ∧ m ≤ 12 ∧ 1 ≤ d ∧ d ≤ daysInMonth y m then some ⟨y, m, d⟩ else none
    else none
  | _ => none

/-- Go `parsePath`: file name without extension parsed as a date (falling
back to `now`), parent directory segment as the config kind (with a guard
replacing "" by "default"), lower-cased extension. -/
def parsePath (p : String) (now : GoDate) : String × GoDate × String :=
  let name := pathBase p
  let ext := pathExt name
  let nameNoExt := String.mk (name.toList.take (name.toList.length - ext.toList.length))
  let date := (goParseDate nameNoExt).getD now
  let confName := pathBase (pathDir p)
  let confName2 := if confName = "" then "default" else confName
  (confName2, date, goToLower ext)

theorem pathBase_ne_empty (s : String) : pathBase s ≠ "" := by
  unfold pathBase
  by_cases h : s = ""
  · rw [if_pos h]; decide
  · rw [if_neg h]
    by_cases hb : afterLastSlash (dropTrailingSlashes s.toList) = []
    · rw [if_pos hb]; decide
    · rw [if_neg hb]
      intro hcon
      exact hb (congrArg String.data hcon)

/-- C7 counterexample.  The claim says an empty or root parent directory
yields kind "default"; but `path.Base` never returns "", so the guard in
`parsePath` is dead: the root parent yields kind "/" and the empty parent
yields kind ".". -/
theorem c7_parse_path_counterexample :
    (parsePath ("/2024-01-01.gif") ⟨2025, 10, 11⟩).1 = "/" ∧ ("/" : String) ≠ "default" ∧
    (parsePath ("2024-01-01.gif") ⟨2025, 10, 11⟩).1 = "." ∧ ("." : String) ≠ "default" := by
  refine ⟨by decide, by decide, by decide, by decide⟩

/-- C7 as amended.  `parsePath` returns the date parsed from the file name
without extension in `YYYY-MM-DD` format, falling back to `now` and never
failing; the kind is `path.Base(path.Dir(p))`, which is never the empty
string (so the ""→"default" branch is unreachable; a root or empty parent
yields "/" or "."); and a kind with no config entry resolves to the same
configuration as kind "default". -/
theorem c7_parse_path_amended (p : String) (now : GoDate) :
    (parsePath p now).1 = pathBase (pathDir p) ∧
    pathBase (pathDir p) ≠ "" ∧
    (parsePath p now).2.1 = (goParseDate (String.mk ((pathBase p).toList.take
        ((pathBase p).toList.length - (pathExt (pathBase p)).toList.length)))).getD now ∧
    (∀ confMap : String → Option CalendarConfig,
      (parsePath p now).1 ≠ "default" → confMap ((parsePath p now).1) = none →
      resolveConfig confMap ((parsePath p now).1) = resolveConfig confMap ("default")) := by
  have hbase := pathBase_ne_empty (pathDir p)
  refine ⟨?_, hbase, ?_, ?_⟩
  · show (if pathBase (pathDir p) = "" then "default" else pathBase (pathDir p)) = _
    rw [if_neg hbase]
  · rfl
  · intro confMap hne hnone
    have e1 : resolveConfig confMap ((parsePath p now).1)
        = CalendarConfig.Merge
            (CalendarConfig.Merge ⟨800, 480, "", "", none, none⟩ (confMap ("default"))) none := by
      unfold resolveConfig
      show (if (parsePath p now).1 ≠ "default"
          then CalendarConfig.Merge
            (CalendarConfig.Merge ⟨800, 480, "", "", none, none⟩ (confMap ("default")))
            (confMap ((parsePath p now).1))
          else CalendarConfig.Merge ⟨800, 480, "", "", none, none⟩ (confMap ("default"))) = _
      rw [if_pos hne, hnone]
    have e2 : resolveConfig confMap ("default")
        = CalendarConfig.Merge ⟨800, 480, "", "", none, none⟩ (confMap ("default")) := by
      unfold resolveConfig
      show (if ("default" : String) ≠ "default"
          then CalendarConfig.Merge
            (CalendarConfig.Merge ⟨800, 480, "", "", none, none⟩ (confMap ("default")))
            (confMap ("default"))
          else CalendarConfig.Merge ⟨800, 480, "", "", none, none⟩ (confMap ("default"))) = _
      rw [if_neg (by simp)]
    rw [e1, e2]
    rfl

/-- Concrete instance of `c7_parse_path_amended`: the path
`work/2025-01-01.gif` yields kind "work" and the parsed date 2025-01-01;
an unparsable name falls back to `now`. -/
theorem c7_parse_path_amended_witness :
    (parsePath ("work/2025-01-01.gif") ⟨2024, 6, 1⟩).1 = "work" ∧
    (parsePath ("work/2025-01-01.gif") ⟨2024, 6, 1⟩).2.1 = ⟨2025, 1, 1⟩ ∧
    (parsePath ("work/hello.gif") ⟨2024, 6, 1⟩).2.1 = ⟨2024, 6, 1⟩ := by
  have h1 := (c7_parse_path_amended ("work/2025-01-01.gif") ⟨2024, 6, 1⟩).1
  have h2 := (c7_parse_path_amended ("work/2025-01-01.gif") ⟨2024, 6, 1⟩).2.2.1
  have h3 := (c7_parse_path_amended ("work/hello.gif") ⟨2024, 6, 1⟩).2.2.1
  refine ⟨?_, ?_, ?_⟩
  · rw [h1]; decide
  · rw [h2]; decide
  · rw [h3]; decide

/-! ## Output encoding (writeImage's final step) -/

/-- The serialization chosen by `writeImage`: a full-color PNG, or a GIF over
an `image.NewPaletted` raster with the given palette. -/
inductive EncodedImage where
  | png : EncodedImage
  | gifPaletted : List GoColor → EncodedImage
deriving DecidableEq

/-- The encoding decision at the end of `writeImage`: `.png` gets
`png.Encode` of the full-color drawing; anything else gets a paletted raster
with palette `{TextColor, HolidayColor, BackgroundColor}` encoded as GIF. -/
def writeImageEncoding (ext : String) : EncodedImage :=
  if ext = ".png" then EncodedImage.png
  else EncodedImage.gifPaletted [TextColor, HolidayColor, BackgroundColor]

/-- C8.  Extension ".png" produces the full-color PNG serialization; any
other or missing extension produces the palette-quantized raster whose fixed
palette is, in index order, black (0,0,0), red (255,0,0), white
(255,255,255). -/
theorem c8_encoding (ext : String) :
    (ext = ".png" → writeImageEncoding ext = EncodedImage.png) ∧
    (ext ≠ ".png" → writeImageEncoding ext
        = EncodedImage.gifPaletted
            [⟨0, 0, 0, 255⟩, ⟨255, 0, 0, 255⟩, ⟨255, 255, 255, 255⟩]) := by
  constructor
  · intro h
    simp [writeImageEncoding, h]
  · intro h
    simp only [writeImageEncoding, h, if_neg, if_false, ite_false]
    rfl

/-- Concrete instance of `c8_encoding`: ".png" encodes as PNG; ".gif" (and
so the missing-extension "" case alike) as the three-color paletted GIF. -/
theorem c8_encoding_witness :
    writeImageEncoding (".png") = EncodedImage.png ∧
    writeImageEncoding (".gif") = EncodedImage.gifPaletted
        [⟨0, 0, 0, 255⟩, ⟨255, 0, 0, 255⟩, ⟨255, 255, 255, 255⟩] ∧
    writeImageEncoding ("") = EncodedImage.gifPaletted
        [⟨0, 0, 0, 255⟩, ⟨255, 0, 0, 255⟩, ⟨255, 255, 255, 255⟩] :=
  ⟨(c8_encoding (".png")).1 rfl, (c8_encoding (".gif")).2 (by decide),
    (c8_encoding ("")).2 (by decide)⟩

/-! ## The handler's offset parameter -/

/-- Two's-complement wrap-around of a 64-bit signed multiplication result. -/
def wrap64 (n : Int) : Int :=
  (n + 2 ^ 63) % 2 ^ 64 - 2 ^ 63

/-- The date shift of `handler` in nanoseconds:
`time.Duration(offsetSec) * time.Second` is a 64-bit multiplication by 10⁹,
wrapping on overflow; `offsetSec` comes from `strconv.Atoi` with the error
ignored. -/
def handlerShiftNs (offsetParam : String) : Int :=
  wrap64 (goAtoi offsetParam * 1000000000)

/-- The handler's date adjustment, on an absolute time in nanoseconds:
`date = date.Add(time.Duration(offsetSec) * time.Second)`. -/
def handlerDate (dateNs : Int) (offsetParam : String) : Int :=
  dateNs + handlerShiftNs offsetParam

theorem wrap64_eq (n : Int) (h1 : -(2 ^ 63) ≤ n) (h2 : n < 2 ^ 63) :
    wrap64 n = n := by
  unfold wrap64
  rw [Int.emod_eq_of_lt (by omega) (by omega)]
  omega

/-- C10 counterexample.  The claim says the handler shifts the date by the
offset's value in seconds; but for offset "10000000000" (a valid integer that
Atoi parses exactly) the 64-bit nanosecond product 10¹⁹ overflows and the
actual shift is negative, not 10¹⁰ seconds. -/
theorem c10_offset_counterexample :
    goAtoi ("10000000000") = 10000000000 ∧
    handlerShiftNs ("10000000000") = -8446744073709551616 ∧
    (-8446744073709551616 : Int) ≠ 10000000000 * 1000000000 := by
  refine ⟨by decide, by decide, by decide⟩

/-- C10 as amended.  The handler reads form/query parameter "offset" through
`strconv.Atoi` with the error ignored (missing or non-numeric values give 0,
so the date is unchanged) and shifts the date by that many seconds computed
as a 64-bit nanosecond count: the shift equals exactly `offset` seconds
whenever `offset * 10⁹` fits in a signed 64-bit integer, and wraps modulo
2⁶⁴ otherwise. -/
theorem c10_offset_amended (dateNs : Int) (s : String) :
    handlerDate dateNs ("") = dateNs ∧
    (parseIntVal s = none → handlerDate dateNs s = dateNs) ∧
    (∀ v : Int, parseIntVal s = some v →
      -(2 ^ 63) ≤ v * 1000000000 → v * 1000000000 < 2 ^ 63 →
      handlerDate dateNs s = dateNs + v * 1000000000) := by
  refine ⟨?_, ?_, ?_⟩
  · have h : handlerShiftNs ("") = 0 := by decide
    unfold handlerDate
    rw [h]
    ring
  · intro hnone
    have h : goAtoi s = 0 := by
      unfold goAtoi goParseInt
      rw [hnone]
    unfold handlerDate handlerShiftNs
    rw [h]
    have h0 : wrap64 (0 * 1000000000) = 0 := by decide
    rw [h0]
    ring
  · intro v hsome hlo hhi
    have hv1 : v ≤ 2 ^ 63 - 1 := by
      by_contra hgt
      push_neg at hgt
      have hge : (2 ^ 63 : Int) ≤ v := by omega
      have := mul_le_mul_of_nonneg_right hge (by norm_num : (0 : Int) ≤ 1000000000)
      have hbig : (2 ^ 63 : Int) ≤ 2 ^ 63 * 1000000000 := by norm_num
      omega
    have hv2 : -(2 ^ 63) ≤ v := by
      by_contra hlt
      push_neg at hlt
      have hle : v ≤ -(2 ^ 63) := by omega
      have := mul_le_mul_of_nonneg_right hle (by norm_num : (0 : Int) ≤ 1000000000)
      have hsmall : (-(2 ^ 63) : Int) * 1000000000 ≤ -(2 ^ 63) := by norm_num
      omega
    have h : goAtoi s = v := by
      unfold goAtoi goParseInt
      rw [hsome]
      show (if v > 2 ^ (64 - 1) - 1 then (2 ^ (64 - 1) - 1 : Int)
        else if v < -(2 ^ (64 - 1)) then -(2 ^ (64 - 1)) else v) = v
      rw [if_neg (by norm_num; omega), if_neg (by norm_num; omega)]
    unfold handlerDate handlerShiftNs
    rw [h, wrap64_eq (v * 1000000000) hlo hhi]

/-- Concrete instance of `c10_offset_amended`: offset "5" shifts a date by
exactly five seconds (5·10⁹ ns), and a missing offset leaves it unchanged. -/
theorem c10_offset_amended_witness :
    handlerDate 0 ("5") = 5000000000 ∧ handlerDate 123 ("") = 123 := by
  constructor
  · have h := (c10_offset_amended 0 ("5")).2.2 5 (by decide) (by decide) (by decide)
    rw [h]
    ring
  · exact (c10_offset_amended 123 ("")).1
